import Mathlib

/-!
# Verification of the `quallocator` memory allocators

Shallow embedding of the two allocation engines of the repository:

* the bump engine (`src/bump/allocator.rs`, `src/bump/utils.rs`):
  a doubly linked list of block headers living in a contiguous arena
  grown and shrunk through `sbrk`;
* the region engine (`src/mmap/allocator.rs`, `src/mmap/utils.rs`):
  a linked list of `mmap`-ed regions, each holding a linked list of
  sections.

Pointers are modelled as natural-number addresses.  The linked chain of
headers reachable from an engine's head pointer is modelled as a Lean
`List` of header records, each record carrying the address at which the
header lives; the `None`/uninitialized head is the empty list for the
region engine and an explicit `Option`-like empty list for the bump
engine.  The operating-system primitives (`sbrk`, `mmap`, `munmap`) are
modelled as oracles passed to the operations: a boolean grant for
`sbrk`, an optional fresh base address for `mmap`.  Header sizes
(`size_of::<BumpMemoryBlockHeader>()` etc.) and the page size are kept
as parameters of the model.
-/

namespace Quallocator

/-! ## Alignment utility

`src/utils.rs` / `src/bump/utils.rs`:

```rust
pub fn align_up(size: i32) -> i32 {
    (size + (8 - 1)) & !(8 - 1)
}
```

The `i32` bit pattern is modelled as a natural number below `2 ^ 32`;
`!(8 - 1)` is the 32-bit pattern `0xFFFFFFF8`.  For the sizes the
claims range over (non-negative, no overflow of `size + 7`) this agrees
with the mathematical rounding-up to a multiple of 8. -/

def align_up (size : Nat) : Nat :=
  ((size + 7) % 2 ^ 32) &&& 0xFFFFFFF8

/-! ## Bump engine data model

`src/bump/mod.rs`:

```rust
pub struct BumpMemoryBlockHeader {
    pub size: i32,
    pub is_free: bool,
    pub next: Option<AtomicPtr<BumpMemoryBlockHeader>>,
    pub prev: Option<AtomicPtr<BumpMemoryBlockHeader>>,
}
```

A header is embedded at address `addr`; the user pointer is
`addr + hdr` where `hdr = BumpMemoryBlockHeader::size()` (kept as a
parameter of every operation).  The `next` chain reachable from the
global head pointer is the `List`; `prev` is kept as the raw address
stored in the header, exactly as the code maintains it. -/

structure BumpMemoryBlockHeader where
  addr : Nat
  size : Nat
  is_free : Bool
  prev : Option Nat
  deriving Repr, DecidableEq

/-- The bump engine's global state: the chain reachable from
`bump_memory` (`[]` models the uninitialized `None` guard) and the
current program break (`sbrk(0)`). -/
structure BumpState where
  head : List BumpMemoryBlockHeader
  heap : Nat
  deriving Repr, DecidableEq

/-- Result of one `BumpAllocator::qualloc` call.  `asked` is a ghost
flag recording whether the run invoked the `sbrk` growth primitive
(`allocate_block`). -/
structure BumpAllocResult where
  ptr : Option Nat
  state : BumpState
  asked : Bool
  deriving Repr, DecidableEq

/-! ### `merge_adjacent_free_blocks` (src/bump/utils.rs lines 121-226)

The `while` loop walks `current_block` along the `next` chain while the
current block is free, keeping `last_scanned_block` and
`acumulated_size`.  When the next block is free *and* physically
adjacent (`current_address + hdr + current.size == next_address`) it
adds `current.size + hdr` to the accumulator (note: the *current*
block's size, exactly as the source does). -/

def mergeGo (hdr stop : Nat) (cur : BumpMemoryBlockHeader)
    (rest : List BumpMemoryBlockHeader) (idx acum : Nat)
    (lastSc : Option Nat) : Option Nat × Nat :=
  if cur.is_free = false then (lastSc, acum)
  else if stop ≤ acum then (some idx, acum)
  else
    match rest with
    | [] => (some idx, acum)
    | nb :: rest' =>
      let acum' :=
        if nb.is_free = true ∧ cur.addr + hdr + cur.size = nb.addr then
          acum + cur.size + hdr
        else acum
      mergeGo hdr stop nb rest' (idx + 1) acum' (some idx)

/-- `merge_adjacent_free_blocks(initial_block, stop_size)`.  The input
chain starts at `initial_block`.  Returns
`(merge succeeded?, resulting chain from initial_block, index of the
last scanned block)`.  On failure the chain is untouched; on success
the initial block's `size` becomes the accumulated size and its `next`
is relinked to the block after the last scanned one (whose `prev` is
pointed back at the initial block). -/
def merge_adjacent_free_blocks (hdr : Nat)
    (chain : List BumpMemoryBlockHeader) (stop : Nat) :
    Bool × List BumpMemoryBlockHeader × Option Nat :=
  match chain with
  | [] => (false, [], none)
  | b :: rest =>
    let acum0 := if b.is_free = true then b.size else 0
    let res := mergeGo hdr stop b rest 0 acum0 none
    if res.2 < stop then (false, b :: rest, res.1)
    else
      let merged := { b with size := res.2 }
      let after :=
        match res.1 with
        | some k =>
          match List.drop (k + 1) (b :: rest) with
          | [] => ([] : List BumpMemoryBlockHeader)
          | x :: xs => { x with prev := some b.addr } :: xs
        | none => []
      (true, merged :: after, res.1)

/-- The relink performed by a successful merge on the chain after the
last absorbed block: its first node's `prev` is pointed back at the
merged block's address (`(*next_block).prev = Some(initial_block)`). -/
def relinkPrev (a : Nat) : List BumpMemoryBlockHeader →
    List BumpMemoryBlockHeader
  | [] => []
  | x :: xs => { x with prev := some a } :: xs

/-! ### `BumpAllocator::qualloc` (src/bump/allocator.rs lines 22-97)

The scan loop is written with explicit fuel; every iteration either
returns or strictly shrinks the remaining chain, so the fuel supplied
by `qualloc` (chain length + 1) is never exhausted on a real run.
`done` is the already-walked prefix of the chain, `rest` the chain from
`current_node`. -/

/-- The `current_node` jump taken when a merge fails: resume from the
last scanned block when it is a different pointer than the current
node, else fall through to `node.next` (the source's
`last_scanned_block as i32 != current_node.unwrap() as i32` test). -/
def scanJump (node : BumpMemoryBlockHeader)
    (rs : List BumpMemoryBlockHeader) (lastSc : Option Nat) : Option Nat :=
  match lastSc with
  | some k =>
    match (node :: rs).get? k with
    | some lastNode => if lastNode.addr ≠ node.addr then some k else none
    | none => none
  | none => none

def quallocGo (hdr : Nat) (sbrkOk : Bool) (size : Nat) :
    Nat → List BumpMemoryBlockHeader → List BumpMemoryBlockHeader →
    Nat → BumpAllocResult
  | 0, done, rest, heap => ⟨none, ⟨done ++ rest, heap⟩, false⟩
  | fuel + 1, done, rest, heap =>
    match rest with
    | [] =>
      -- scan exhausted: `allocate_block` and append as the new tail,
      -- linking prev to the last visited node
      if sbrkOk then
        let node : BumpMemoryBlockHeader :=
          { addr := heap, size := align_up size, is_free := false,
            prev := done.getLast?.map (·.addr) }
        ⟨some (heap + hdr), ⟨done ++ [node], heap + hdr + align_up size⟩, true⟩
      else
        ⟨none, ⟨done, heap⟩, true⟩
    | node :: rs =>
      if node.is_free = false then
        quallocGo hdr sbrkOk size fuel (done ++ [node]) rs heap
      else if node.size < size then
        match merge_adjacent_free_blocks hdr (node :: rs) size with
        | (true, chain', _) => quallocGo hdr sbrkOk size fuel done chain' heap
        | (false, _, lastSc) =>
          match scanJump node rs lastSc with
          | some k =>
            quallocGo hdr sbrkOk size fuel (done ++ (node :: rs).take k)
              ((node :: rs).drop k) heap
          | none => quallocGo hdr sbrkOk size fuel (done ++ [node]) rs heap
      else
        ⟨some (node.addr + hdr),
         ⟨done ++ { node with is_free := false } :: rs, heap⟩, false⟩

/-- `BumpAllocator::qualloc(size)`.  `sbrkOk` models whether the OS
grants an `sbrk` growth request (`allocate_block` returns `None` when
`sbrk` fails). -/
def qualloc (hdr : Nat) (sbrkOk : Bool) (st : BumpState) (size : Nat) :
    BumpAllocResult :=
  match st.head with
  | [] =>
    if sbrkOk then
      let node : BumpMemoryBlockHeader :=
        { addr := st.heap, size := align_up size, is_free := false, prev := none }
      ⟨some (st.heap + hdr), ⟨[node], st.heap + hdr + align_up size⟩, true⟩
    else ⟨none, st, true⟩
  | chain => quallocGo hdr sbrkOk size (chain.length + 1) [] chain st.heap

/-! ### `BumpAllocator::qudelloc` (src/bump/allocator.rs lines 106-168) -/

/-- Effect of `(*prev).next = None` where `prev` is the address stored
in the freed tail's `prev` field: the chain from the head is cut just
after the node living at address `a`.  Returns `none` when no node in
the walked prefix has that address (the write then does not affect the
chain reachable from the head). -/
def cutAfter (a : Nat) : List BumpMemoryBlockHeader →
    Option (List BumpMemoryBlockHeader)
  | [] => none
  | n :: ns => if n.addr = a then some [n] else (cutAfter a ns).map (n :: ·)

/-- The `while let Some(node)` loop of `qudelloc`: walk the chain
comparing each node's user pointer (`addr + hdr`) with `p`.  A matching
node is marked free; if it is the tail, the predecessor named by its
`prev` field is unlinked and `deallocate_block(node.size)` shrinks the
heap (returned as `some node.size`); otherwise the scan continues. -/
def quddLoop (hdr p : Nat) (done : List BumpMemoryBlockHeader) :
    List BumpMemoryBlockHeader →
    List BumpMemoryBlockHeader × Option Nat
  | [] => (done, none)
  | n :: ns =>
    if n.addr + hdr = p then
      if ns.isEmpty then
        match n.prev with
        | some a =>
          match cutAfter a done with
          | some d => (d, some n.size)
          | none => (done ++ [{ n with is_free := true }], some n.size)
        | none => (done ++ [{ n with is_free := true }], some n.size)
      else
        quddLoop hdr p (done ++ [{ n with is_free := true }]) ns
    else
      quddLoop hdr p (done ++ [n]) ns

/-- `BumpAllocator::qudelloc(usr_data)`.  The head node is checked
first: if it matches and has no successor the guard is reset to `None`
and the arena shrinks by `hdr + size`; if it matches with a successor
it is only marked free.  Otherwise the walk loop runs. -/
def qudelloc (hdr : Nat) (st : BumpState) (p : Nat) : BumpState :=
  match st.head with
  | [] => st
  | h :: t =>
    if h.addr + hdr = p then
      if t.isEmpty then ⟨[], st.heap - (hdr + h.size)⟩
      else ⟨{ h with is_free := true } :: t, st.heap⟩
    else
      let res := quddLoop hdr p [] (h :: t)
      match res.2 with
      | some s => ⟨res.1, st.heap - (hdr + s)⟩
      | none => ⟨res.1, st.heap⟩

/-! ## Region engine data model

`src/mmap/utils.rs` and `src/mmap/allocator.rs` use a region record
with `total_space` / `space_available` counters, a `head_section` list
of section headers, and `next`/`prev` region links (constructed by
`MmapMemoryRegion::new(stored_size, stored_size, None, None, None)`).
Section headers carry `{ size, is_free, next, prev }`.  The `next`
chains are modelled as `List`s; section/region header sizes
(`MmapMemorySectionHeader::size()`, `MmapMemoryRegion::size()`) and the
OS page size are parameters `sHdr`, `rHdr`, `pageSize`. -/

structure MmapMemorySectionHeader where
  addr : Nat
  size : Nat
  is_free : Bool
  deriving Repr, DecidableEq

structure MmapMemoryRegion where
  addr : Nat
  total_space : Nat
  space_available : Nat
  sections : List MmapMemorySectionHeader
  deriving Repr, DecidableEq

/-- Result of one `MmapAllocator::allocate` call.  `asked` is a ghost
flag recording whether `allocate_region` (the `mmap` primitive) was
invoked; `unmapped` records the base addresses passed to
`deallocate_region` (`munmap`) during the run. -/
structure MmapAllocResult where
  ptr : Option Nat
  regions : List MmapMemoryRegion
  asked : Bool
  unmapped : List Nat
  deriving Repr, DecidableEq

/-- `round_up_to_page_size` (src/mmap/utils.rs lines 29-32). -/
def round_up_to_page_size (pageSize size : Nat) : Nat :=
  (size + pageSize - 1) / pageSize * pageSize

/-- `allocate_region(size)` (src/mmap/utils.rs lines 38-68).  `osAddr`
models the address handed out by `mmap` (`none` = `MAP_FAILED`).  The
stored size is the mapped block size minus
`MmapMemorySectionHeader::size()`, exactly as the source computes it. -/
def allocate_region (pageSize rHdr sHdr : Nat) (osAddr : Option Nat)
    (size : Nat) : Option MmapMemoryRegion :=
  let block_size := round_up_to_page_size pageSize (size + rHdr)
  osAddr.map fun a =>
    { addr := a, total_space := block_size - sHdr,
      space_available := block_size - sHdr, sections := [] }

/-- The section-scan loop of `place_section_inside_region`
(src/mmap/utils.rs lines 128-167): first-fit over the section chain,
skipping non-free sections and free sections that are too small;
a hit is marked non-free and returned. -/
def placeScan (size : Nat) : List MmapMemorySectionHeader →
    Option (MmapMemorySectionHeader × List MmapMemorySectionHeader)
  | [] => none
  | s :: ss =>
    if s.is_free = false then
      (placeScan size ss).map fun r => (r.1, s :: r.2)
    else if s.size < size then
      (placeScan size ss).map fun r => (r.1, s :: r.2)
    else
      some ({ s with is_free := false }, { s with is_free := false } :: ss)

/-- `place_section_inside_region(region, size)` (src/mmap/utils.rs
lines 88-201).  Returns the placed section's address and the updated
region.  When the section chain is non-empty and no free section fits,
the source returns `None`: the append-after-the-last-section step is
only described in a comment (lines 169-197) and never implemented. -/
def place_section_inside_region (rHdr sHdr : Nat) (r : MmapMemoryRegion)
    (size : Nat) : Option (Nat × MmapMemoryRegion) :=
  if r.space_available < size then none
  else
    match r.sections with
    | [] =>
      let saddr := r.addr + rHdr
      let sect : MmapMemorySectionHeader :=
        { addr := saddr, size := size, is_free := false }
      some (saddr,
        { r with
          sections := [sect]
          space_available := r.space_available - (size + sHdr) })
    | _ :: _ =>
      match placeScan size r.sections with
      | some (t, l) =>
        some (t.addr,
          { r with
            sections := l
            space_available := r.space_available - (t.size + sHdr) })
      | none => none

/-- The region-scan loop of `MmapAllocator::allocate` (lines 48-78):
first-fit over the region chain; a region whose `space_available` is
below the request, or in which placement fails, is skipped. -/
def scanRegions (rHdr sHdr size : Nat) : List MmapMemoryRegion →
    Option (Nat × List MmapMemoryRegion)
  | [] => none
  | r :: rs =>
    if r.space_available < size then
      (scanRegions rHdr sHdr size rs).map fun q => (q.1, r :: q.2)
    else
      match place_section_inside_region rHdr sHdr r size with
      | some (saddr, r') => some (saddr + sHdr, r' :: rs)
      | none => (scanRegions rHdr sHdr size rs).map fun q => (q.1, r :: q.2)

/-- `MmapAllocator::allocate(size)` (src/mmap/allocator.rs lines
12-119).  On an uninitialized list the first section is written
directly after the fresh region's header *without* touching
`space_available` (lines 31-42 of the source).  Otherwise the region
chain is scanned; if nothing fits, a new region is mapped, placement is
attempted inside it, a failed placement rolls the mapping back
(`deallocate_region`), and a successful one links the region as the new
tail. -/
def mmap_allocate (pageSize rHdr sHdr : Nat) (osAddr : Option Nat)
    (regions : List MmapMemoryRegion) (size : Nat) : MmapAllocResult :=
  match regions with
  | [] =>
    match allocate_region pageSize rHdr sHdr osAddr size with
    | none => ⟨none, [], true, []⟩
    | some r =>
      let saddr := r.addr + rHdr
      let sect : MmapMemorySectionHeader :=
        { addr := saddr, size := size, is_free := false }
      ⟨some (saddr + sHdr), [{ r with sections := [sect] }], true, []⟩
  | _ :: _ =>
    match scanRegions rHdr sHdr size regions with
    | some (p, regions') => ⟨some p, regions', false, []⟩
    | none =>
      match allocate_region pageSize rHdr sHdr osAddr size with
      | none => ⟨none, regions, true, []⟩
      | some nr =>
        match place_section_inside_region rHdr sHdr nr size with
        | none => ⟨none, regions, true, [nr.addr]⟩
        | some (saddr, nr') =>
          ⟨some (saddr + sHdr), regions ++ [nr'], true, []⟩

/-- The spec's region invariant: `space_available` equals capacity
(`total_space`) minus the sum of `size + sHdr` over the non-free
sections. -/
def occupiedFootprint (sHdr : Nat) (l : List MmapMemorySectionHeader) : Nat :=
  (l.filter fun s => s.is_free = false).foldr (fun s a => s.size + sHdr + a) 0

def mmapRegionInvariant (sHdr : Nat) (r : MmapMemoryRegion) : Prop :=
  r.space_available = r.total_space - occupiedFootprint sHdr r.sections

instance (sHdr : Nat) (r : MmapMemoryRegion) :
    Decidable (mmapRegionInvariant sHdr r) := by
  unfold mmapRegionInvariant; infer_instance

/-- Modelled from the spec: the "room remains to append a new section
after the region's current last section" condition.  The code never
implements the append; this definition transcribes the formula written
in the source comment of `place_section_inside_region`
(src/mmap/utils.rs lines 171-197): with `ls` the last section,
`us = ls + ls.size + sHdr` and the room condition is
`us + sHdr + size ≤ region + total_space + rHdr`. -/
def room_to_append (rHdr sHdr : Nat) (r : MmapMemoryRegion) (size : Nat) :
    Bool :=
  match r.sections.getLast? with
  | none => true
  | some ls =>
    decide (ls.addr + ls.size + sHdr + sHdr + size ≤
      r.addr + r.total_space + rHdr)

/-! ## Helper lemmas -/

/-- The 32-bit mask `!7` keeps exactly bits 3..31. -/
lemma and_mask32_eq (x : Nat) : x &&& 0xFFFFFFF8 = x % 2 ^ 32 / 8 * 8 := by
  apply Nat.eq_of_testBit_eq
  intro i
  have hmask : (0xFFFFFFF8 : Nat) = (2 ^ 29 - 1) <<< 3 := by decide
  have hrhs : x % 2 ^ 32 / 8 * 8 = ((x % 2 ^ 32) >>> 3) <<< 3 := by
    rw [Nat.shiftRight_eq_div_pow, Nat.shiftLeft_eq]
  rw [hmask, hrhs, Nat.testBit_and, Nat.testBit_shiftLeft, Nat.testBit_shiftLeft,
    Nat.testBit_shiftRight, Nat.testBit_two_pow_sub_one, Nat.testBit_mod_two_pow]
  by_cases h3 : 3 ≤ i
  · have h1 : 3 + (i - 3) = i := by omega
    rw [h1]
    by_cases h32 : i < 32
    · simp [h3, h32]
      omega
    · simp [h3, h32]
      omega
  · simp [h3]

/-- For in-range inputs `align_up` is plain arithmetic rounding. -/
lemma align_up_eq_of_lt (s : Nat) (h : s + 7 < 2 ^ 31) :
    align_up s = (s + 7) / 8 * 8 := by
  have h32 : s + 7 < 2 ^ 32 := by omega
  rw [align_up, and_mask32_eq, Nat.mod_eq_of_lt h32, Nat.mod_eq_of_lt h32]

/-- Walking the deallocation loop past nodes whose user pointer does
not match just moves them into the accumulated prefix. -/
lemma quddLoop_skip (hdr p : Nat) (l : List BumpMemoryBlockHeader) :
    ∀ (acc rest : List BumpMemoryBlockHeader),
      (∀ m ∈ l, m.addr + hdr ≠ p) →
      quddLoop hdr p acc (l ++ rest) = quddLoop hdr p (acc ++ l) rest := by
  induction l with
  | nil => intro acc rest _; simp
  | cons n ns ih =>
    intro acc rest hno
    have hn : n.addr + hdr ≠ p := hno n (by simp)
    rw [List.cons_append, quddLoop, if_neg hn, ih (acc ++ [n]) rest
      (fun m hm => hno m (by simp [hm]))]
    simp

/-- Cutting the chain after its own last node (addresses being distinct)
returns the chain unchanged. -/
lemma cutAfter_getLast (l : List BumpMemoryBlockHeader)
    (L : BumpMemoryBlockHeader) (hL : l.getLast? = some L)
    (hnd : (l.map (·.addr)).Nodup) : cutAfter L.addr l = some l := by
  induction l with
  | nil => simp at hL
  | cons x xs ih =>
    cases xs with
    | nil =>
      simp at hL
      subst hL
      simp [cutAfter]
    | cons y ys =>
      have hL' : (y :: ys).getLast? = some L := by
        rw [List.getLast?_cons_cons] at hL
        exact hL
      have hmem : L ∈ y :: ys := List.mem_of_getLast?_eq_some hL'
      have hx : x.addr ≠ L.addr := by
        simp only [List.map, List.nodup_cons] at hnd
        intro heq
        exact hnd.1 (heq ▸ List.mem_map_of_mem (·.addr) hmem)
      have hnd' : ((y :: ys).map (·.addr)).Nodup := by
        simp only [List.map, List.nodup_cons] at hnd ⊢
        exact hnd.2
      rw [cutAfter, if_neg hx, ih hL' hnd']
      rfl

/-! ## Claim theorems -/

/-- C9: for every non-negative in-range size `s`, `align_up(s)` is the
smallest multiple of the 8-byte alignment that is ≥ `s`; consequently
`align_up(align_up(s)) = align_up(s)` and `align_up(s) % 8 = 0`. -/
theorem align_up_least_multiple (s : Nat) (h : s + 7 < 2 ^ 31) :
    align_up s % 8 = 0 ∧ s ≤ align_up s ∧
      (∀ m, m % 8 = 0 → s ≤ m → align_up s ≤ m) ∧
      align_up (align_up s) = align_up s := by
  have h1 : align_up s = (s + 7) / 8 * 8 := align_up_eq_of_lt s h
  have h2 : align_up s + 7 < 2 ^ 31 := by rw [h1]; omega
  have h3 : align_up (align_up s) = (align_up s + 7) / 8 * 8 :=
    align_up_eq_of_lt _ h2
  refine ⟨by omega, by omega, fun m hm hsm => by omega, by omega⟩

theorem align_up_least_multiple_witness :
    align_up 52 % 8 = 0 ∧ 52 ≤ align_up 52 ∧
      align_up (align_up 52) = align_up 52 :=
  ⟨(align_up_least_multiple 52 (by norm_num)).1,
   (align_up_least_multiple 52 (by norm_num)).2.1,
   (align_up_least_multiple 52 (by norm_num)).2.2.2⟩

/-- C8: for every size `s`, a bump `qualloc(s)` on an empty
(uninitialized) arena succeeds with the `sbrk` grant and moves the heap
boundary from `heap` to `heap + hdr + align_up s`. -/
theorem bump_heap_growth (hdr heap s : Nat) :
    (qualloc hdr true ⟨[], heap⟩ s).state.heap = heap + hdr + align_up s ∧
      (qualloc hdr true ⟨[], heap⟩ s).ptr = some (heap + hdr) := by
  constructor <;> rfl

/-- C10: when the bump list head is uninitialized, or `p` is not the
user pointer (`addr + hdr`) of any node in the list, `qudelloc(p)`
returns without modifying any node, the list head, or the heap
boundary. -/
theorem qudelloc_invalid_pointer_noop (hdr : Nat) (st : BumpState)
    (p : Nat) (hno : ∀ m ∈ st.head, m.addr + hdr ≠ p) :
    qudelloc hdr st p = st := by
  obtain ⟨head, heap⟩ := st
  cases head with
  | nil => rfl
  | cons h t =>
    have hh : h.addr + hdr ≠ p := hno h (by simp)
    have hwalk : quddLoop hdr p [h] (t ++ []) =
        quddLoop hdr p ([h] ++ t) [] :=
      quddLoop_skip hdr p t [h] []
        (fun m hm => hno m (by simp [hm]))
    simp only [List.append_nil, List.singleton_append] at hwalk
    simp [qudelloc, hh, hwalk, quddLoop]

/-- C5: deallocating the tail block marks it free and shrinks the arena
by `hdr + node.size`: the list head is reset to uninitialized when it
was the only node, and the tail is unlinked from its predecessor
otherwise.  In particular a single allocation followed by its
deallocation returns the heap boundary exactly to its previous value
and leaves the head state uninitialized. -/
theorem qudelloc_tail_shrinks :
    (∀ (hdr : Nat) (st : BumpState) (p : Nat)
        (done : List BumpMemoryBlockHeader) (n : BumpMemoryBlockHeader),
      st.head = done ++ [n] →
      p = n.addr + hdr →
      (∀ m ∈ done, m.addr + hdr ≠ p) →
      n.prev = done.getLast?.map (·.addr) →
      (done.map (·.addr)).Nodup →
      qudelloc hdr st p = ⟨done, st.heap - (hdr + n.size)⟩) ∧
    (∀ (hdr b s : Nat),
      (qualloc hdr true ⟨[], b⟩ s).ptr = some (b + hdr) ∧
      qudelloc hdr (qualloc hdr true ⟨[], b⟩ s).state (b + hdr) = ⟨[], b⟩) := by
  constructor
  · intro hdr st p done n hhead hp hno hprev hnd
    obtain ⟨head, heap⟩ := st
    simp only at hhead
    subst hhead
    cases done with
    | nil =>
      simp only [List.getLast?_nil, Option.map_none'] at hprev
      simp [qudelloc, hp]
    | cons d ds =>
      have hd : d.addr + hdr ≠ p := hno d (by simp)
      cases hgl : (d :: ds).getLast? with
      | none => simp at hgl
      | some L =>
        rw [hgl] at hprev
        have hprev' : n.prev = some L.addr := by simpa using hprev
        have hcut := cutAfter_getLast (d :: ds) L hgl hnd
        have hend : quddLoop hdr p (d :: ds) [n] = (d :: ds, some n.size) := by
          rw [quddLoop, if_pos hp.symm]
          simp [hprev', hcut]
        have hfull : quddLoop hdr p [] ((d :: ds) ++ [n]) =
            (d :: ds, some n.size) := by
          rw [quddLoop_skip hdr p (d :: ds) [] [n] hno, List.nil_append, hend]
        simp only [List.cons_append] at hfull
        simp [qudelloc, hd, hfull]
  · intro hdr b s
    refine ⟨rfl, ?_⟩
    show qudelloc hdr ⟨[⟨b, align_up s, false, none⟩], b + hdr + align_up s⟩
        (b + hdr) = ⟨[], b⟩
    simp [qudelloc]
    omega

theorem qudelloc_tail_shrinks_witness :
    qudelloc 40 ⟨[⟨0, 56, false, none⟩, ⟨96, 56, false, some 0⟩], 192⟩ 136 =
        ⟨[⟨0, 56, false, none⟩], 192 - (40 + 56)⟩ ∧
      (qualloc 40 true ⟨[], 0⟩ 52).ptr = some (0 + 40) ∧
      qudelloc 40 (qualloc 40 true ⟨[], 0⟩ 52).state (0 + 40) = ⟨[], 0⟩ :=
  ⟨qudelloc_tail_shrinks.1 40 ⟨[⟨0, 56, false, none⟩, ⟨96, 56, false, some 0⟩], 192⟩
      136 [⟨0, 56, false, none⟩] ⟨96, 56, false, some 0⟩ rfl (by decide)
      (by decide) (by decide) (by decide),
   (qudelloc_tail_shrinks.2 40 0 52).1,
   (qudelloc_tail_shrinks.2 40 0 52).2⟩

lemma align_up_52 : align_up 52 = 56 := by decide

/-- A successful `merge_adjacent_free_blocks` yields a chain headed by
the initial block carrying the accumulated size, which reached the
requested stop size. -/
lemma merge_success_shape (hdr stop : Nat) (node : BumpMemoryBlockHeader)
    (rs chain' : List BumpMemoryBlockHeader) (k : Option Nat)
    (heq : merge_adjacent_free_blocks hdr (node :: rs) stop =
      (true, chain', k)) :
    ∃ a after, stop ≤ a ∧ chain' = { node with size := a } :: after := by
  simp only [merge_adjacent_free_blocks] at heq
  split at heq
  · split at heq
    · simp at heq
    · next hlt =>
      simp only [Prod.mk.injEq, true_and] at heq
      exact ⟨_, _, by omega, heq.1.symm⟩
  · split at heq
    · simp at heq
    · next hlt =>
      simp only [Prod.mk.injEq, true_and] at heq
      exact ⟨_, _, by omega, heq.1.symm⟩

/-- When the scan stands on a free block already large enough, `qualloc`
returns it without consulting the OS. -/
lemma quallocGo_free_fit_asked (hdr : Nat) (sbrkOk : Bool)
    (size fuel heap : Nat) (done after : List BumpMemoryBlockHeader)
    (b : BumpMemoryBlockHeader) (hfree : b.is_free = true)
    (hfit : ¬ b.size < size) :
    (quallocGo hdr sbrkOk size fuel done (b :: after) heap).asked = false := by
  cases fuel with
  | zero => rfl
  | succ f =>
    rw [quallocGo]
    simp [hfree, hfit]

/-- Skipping a run of non-free nodes during the allocation scan only
moves them into the walked prefix, consuming one unit of fuel each. -/
lemma quallocGo_skip_occupied (hdr : Nat) (sbrkOk : Bool) (size : Nat)
    (pre : List BumpMemoryBlockHeader) :
    ∀ (fuel : Nat) (done rest : List BumpMemoryBlockHeader) (heap : Nat),
      (∀ m ∈ pre, m.is_free = false) →
      quallocGo hdr sbrkOk size (fuel + pre.length) done (pre ++ rest) heap =
        quallocGo hdr sbrkOk size fuel (done ++ pre) rest heap := by
  induction pre with
  | nil =>
    intro fuel done rest heap _
    simp
  | cons m ms ih =>
    intro fuel done rest heap hpre
    have hm : m.is_free = false := hpre m (by simp)
    have hlen : fuel + (m :: ms).length = (fuel + ms.length) + 1 := by
      simp only [List.length_cons]
      omega
    rw [hlen, List.cons_append, quallocGo, if_pos hm,
      ih fuel (done ++ [m]) rest heap (fun x hx => hpre x (by simp [hx]))]
    simp [List.append_assoc]

/-- A scan step on a too-small free node whose merge succeeds continues
at the merged chain with the walked prefix unchanged. -/
lemma quallocGo_merge_step (hdr : Nat) (sbrkOk : Bool)
    (size fuel heap : Nat) (done rs chain' : List BumpMemoryBlockHeader)
    (b : BumpMemoryBlockHeader) (k : Option Nat)
    (hb : b.is_free = true) (hsmall : b.size < size)
    (hm : merge_adjacent_free_blocks hdr (b :: rs) size = (true, chain', k)) :
    quallocGo hdr sbrkOk size (fuel + 1) done (b :: rs) heap =
      quallocGo hdr sbrkOk size fuel done chain' heap := by
  rw [quallocGo]
  simp [hb, hsmall, hm]

/-- A scan step on a free node that fits marks it non-free and returns
its user pointer, leaving the heap boundary alone. -/
lemma quallocGo_hit (hdr : Nat) (sbrkOk : Bool) (size fuel heap : Nat)
    (done rest0 : List BumpMemoryBlockHeader) (b : BumpMemoryBlockHeader)
    (hb : b.is_free = true) (hfit : ¬ b.size < size) :
    quallocGo hdr sbrkOk size (fuel + 1) done (b :: rest0) heap =
      ⟨some (b.addr + hdr),
       ⟨done ++ { b with is_free := false } :: rest0, heap⟩, false⟩ := by
  rw [quallocGo]
  simp [hb, hfit]

/-- With the `sbrk` grant refused, any scan run that ends up invoking
the growth primitive returns no pointer and leaves the walked chain and
the heap boundary untouched. -/
lemma quallocGo_refuse (hdr size : Nat) :
    ∀ (fuel : Nat) (done rest : List BumpMemoryBlockHeader) (heap : Nat),
      (quallocGo hdr false size fuel done rest heap).asked = true →
      (quallocGo hdr false size fuel done rest heap).ptr = none ∧
        (quallocGo hdr false size fuel done rest heap).state =
          ⟨done ++ rest, heap⟩ := by
  intro fuel
  induction fuel with
  | zero =>
    intro done rest heap h
    exact absurd h (by simp [quallocGo])
  | succ f ih =>
    intro done rest heap
    cases rest with
    | nil =>
      rw [quallocGo]
      intro _
      simp
    | cons node rs =>
      rw [quallocGo]
      split
      · intro h
        have := ih (done ++ [node]) rs heap h
        simpa [List.append_assoc] using this
      · next hfree =>
        split
        · split
          · next chain' k heq =>
            intro h
            obtain ⟨a, after, hchainstop, hchain⟩ :=
              merge_success_shape hdr size node rs chain' k heq
            have hfr : node.is_free = true := by
              cases hf : node.is_free
              · exact absurd hf hfree
              · rfl
            have hask : (quallocGo hdr false size f done chain' heap).asked =
                false := by
              rw [hchain]
              exact quallocGo_free_fit_asked hdr false size f heap done after
                { node with size := a } hfr (by simp; omega)
            rw [hask] at h
            exact absurd h (by simp)
          · split
            · next j heqj =>
              intro h
              have := ih (done ++ (node :: rs).take j) ((node :: rs).drop j)
                heap h
              rw [List.append_assoc, List.take_append_drop] at this
              exact this
            · intro h
              have := ih (done ++ [node]) rs heap h
              simpa [List.append_assoc] using this
        · intro h
          simp at h

/-- C4: when the OS growth primitive refuses the request (the `sbrk`
grant for the bump engine, the anonymous-mapping address for the region
engine), allocate returns the "no memory" result and leaves the
engine's list state exactly as it was before the call — no partial
state is visible.  The ghost `asked` flag singles out the runs that
actually invoked the refused primitive. -/
theorem alloc_os_refusal_no_partial_state :
    (∀ (hdr : Nat) (st : BumpState) (s : Nat),
      (qualloc hdr false st s).asked = true →
      (qualloc hdr false st s).ptr = none ∧
        (qualloc hdr false st s).state = st) ∧
    (∀ (pageSize rHdr sHdr : Nat) (regs : List MmapMemoryRegion) (s : Nat),
      (mmap_allocate pageSize rHdr sHdr none regs s).asked = true →
      (mmap_allocate pageSize rHdr sHdr none regs s).ptr = none ∧
        (mmap_allocate pageSize rHdr sHdr none regs s).regions = regs) := by
  constructor
  · intro hdr st s h
    obtain ⟨head, heap⟩ := st
    cases head with
    | nil => exact ⟨rfl, rfl⟩
    | cons a t => exact quallocGo_refuse hdr s ((a :: t).length + 1) [] (a :: t) heap h
  · intro ps rh sh regs s h
    cases regs with
    | nil => exact ⟨rfl, rfl⟩
    | cons r rs =>
      cases hscan : scanRegions rh sh s (r :: rs) with
      | some q =>
        obtain ⟨p, regions'⟩ := q
        rw [mmap_allocate, hscan] at h
        simp at h
      | none =>
        constructor <;> simp [mmap_allocate, hscan, allocate_region]

theorem alloc_os_refusal_no_partial_state_witness :
    ((qualloc 40 false ⟨[], 0⟩ 52).ptr = none ∧
      (qualloc 40 false ⟨[], 0⟩ 52).state = ⟨[], 0⟩) ∧
    ((mmap_allocate 4096 48 40 none [⟨0, 4056, 0, [⟨48, 52, false⟩]⟩] 52).ptr =
        none ∧
      (mmap_allocate 4096 48 40 none [⟨0, 4056, 0, [⟨48, 52, false⟩]⟩]
        52).regions = [⟨0, 4056, 0, [⟨48, 52, false⟩]⟩]) :=
  ⟨alloc_os_refusal_no_partial_state.1 40 ⟨[], 0⟩ 52 rfl,
   alloc_os_refusal_no_partial_state.2 4096 48 40
     [⟨0, 4056, 0, [⟨48, 52, false⟩]⟩] 52 rfl⟩

/-- C6: deallocating a block that has a successor leaves the heap
boundary unchanged and keeps the node in the list marked free; in the
A/B/C scenario (all of size 52) C reuses A's address (first-fit) and
B's user pointer is the arena base plus two header sizes plus the
aligned size. -/
theorem qudelloc_non_tail_frame_and_reuse :
    (∀ (hdr : Nat) (st : BumpState) (p : Nat)
        (done rest : List BumpMemoryBlockHeader) (n : BumpMemoryBlockHeader),
      st.head = done ++ n :: rest →
      rest ≠ [] →
      p = n.addr + hdr →
      (∀ m ∈ done, m.addr + hdr ≠ p) →
      (∀ m ∈ rest, m.addr + hdr ≠ p) →
      qudelloc hdr st p =
        ⟨done ++ { n with is_free := true } :: rest, st.heap⟩) ∧
    (∀ hdr b : Nat,
      (qualloc hdr true ⟨[], b⟩ 52).ptr = some (b + hdr) ∧
      (qualloc hdr true (qualloc hdr true ⟨[], b⟩ 52).state 52).ptr =
        some (b + 2 * hdr + align_up 52) ∧
      (qudelloc hdr
          (qualloc hdr true (qualloc hdr true ⟨[], b⟩ 52).state 52).state
          (b + hdr)).heap =
        (qualloc hdr true (qualloc hdr true ⟨[], b⟩ 52).state 52).state.heap ∧
      (qualloc hdr true
          (qudelloc hdr
            (qualloc hdr true (qualloc hdr true ⟨[], b⟩ 52).state 52).state
            (b + hdr)) 52).ptr = some (b + hdr)) := by
  constructor
  · intro hdr st p done rest n hhead hrest hp hnod hnor
    obtain ⟨head, heap⟩ := st
    simp only at hhead
    subst hhead
    have hne : rest.isEmpty = false := by
      cases rest
      · exact absurd rfl hrest
      · rfl
    cases done with
    | nil =>
      simp [qudelloc, hp, hne]
    | cons d ds =>
      have hd : d.addr + hdr ≠ p := hnod d (by simp)
      have hstep : quddLoop hdr p (d :: ds) (n :: rest) =
          ((d :: ds) ++ { n with is_free := true } :: rest, none) := by
        rw [quddLoop, if_pos hp.symm, hne]
        have htail : quddLoop hdr p ((d :: ds) ++ [{ n with is_free := true }])
            (rest ++ []) =
            quddLoop hdr p (((d :: ds) ++ [{ n with is_free := true }]) ++ rest)
              [] :=
          quddLoop_skip hdr p rest ((d :: ds) ++ [{ n with is_free := true }])
            [] hnor
        simp only [List.append_nil] at htail
        simp only [Bool.false_eq_true, if_false, htail, quddLoop]
        simp
      have hfull : quddLoop hdr p [] ((d :: ds) ++ n :: rest) =
          ((d :: ds) ++ { n with is_free := true } :: rest, none) := by
        rw [quddLoop_skip hdr p (d :: ds) [] (n :: rest) hnod, List.nil_append,
          hstep]
      simp only [List.cons_append] at hfull
      simp [qudelloc, hd, hfull]
  · intro hdr b
    refine ⟨rfl, ?_, ?_, ?_⟩
    · show (qualloc hdr true ⟨[⟨b, align_up 52, false, none⟩],
          b + hdr + align_up 52⟩ 52).ptr = _
      simp [qualloc, quallocGo, align_up_52, Nat.two_mul]
      omega
    · show (qudelloc hdr
          (qualloc hdr true ⟨[⟨b, align_up 52, false, none⟩],
            b + hdr + align_up 52⟩ 52).state (b + hdr)).heap = _
      simp [qualloc, quallocGo, qudelloc, align_up_52]
    · show (qualloc hdr true (qudelloc hdr
          (qualloc hdr true ⟨[⟨b, align_up 52, false, none⟩],
            b + hdr + align_up 52⟩ 52).state (b + hdr)) 52).ptr = _
      simp [qualloc, quallocGo, qudelloc, align_up_52]

theorem qudelloc_non_tail_frame_and_reuse_witness :
    qudelloc 40 ⟨[⟨0, 56, false, none⟩, ⟨96, 56, false, some 0⟩,
        ⟨192, 56, false, some 96⟩], 288⟩ 136 =
      ⟨[⟨0, 56, false, none⟩, ⟨96, 56, true, some 0⟩,
        ⟨192, 56, false, some 96⟩], 288⟩ ∧
    (qualloc 40 true
        (qudelloc 40 (qualloc 40 true (qualloc 40 true ⟨[], 0⟩ 52).state 52).state
          (0 + 40)) 52).ptr = some (0 + 40) :=
  ⟨qudelloc_non_tail_frame_and_reuse.1 40
      ⟨[⟨0, 56, false, none⟩, ⟨96, 56, false, some 0⟩,
        ⟨192, 56, false, some 96⟩], 288⟩ 136
      [⟨0, 56, false, none⟩] [⟨192, 56, false, some 96⟩]
      ⟨96, 56, false, some 0⟩ rfl (by decide) (by decide) (by decide)
      (by decide),
   (qudelloc_non_tail_frame_and_reuse.2 40 0).2.2.2⟩

theorem qudelloc_invalid_pointer_noop_witness :
    qudelloc 40 ⟨[⟨0, 56, false, none⟩], 96⟩ 999 =
      ⟨[⟨0, 56, false, none⟩], 96⟩ :=
  qudelloc_invalid_pointer_noop 40 ⟨[⟨0, 56, false, none⟩], 96⟩ 999
    (by decide)

/-- C7: when no existing region satisfies the request, a new region is
mapped and a section placement is attempted inside it; a failed
placement immediately unmaps the just-created region (its base address
is recorded in the ghost `unmapped` list) and returns "no memory" with
the region list unchanged, while a successful placement links the new
region as the new tail of the list and returns the section's user
pointer. -/
theorem mmap_new_region_rollback_or_link (pageSize rHdr sHdr a s : Nat)
    (regs : List MmapMemoryRegion) (nr : MmapMemoryRegion)
    (hne : regs ≠ [])
    (hscan : scanRegions rHdr sHdr s regs = none)
    (hreg : allocate_region pageSize rHdr sHdr (some a) s = some nr) :
    (place_section_inside_region rHdr sHdr nr s = none →
      mmap_allocate pageSize rHdr sHdr (some a) regs s =
        ⟨none, regs, true, [nr.addr]⟩) ∧
    (∀ saddr nr',
      place_section_inside_region rHdr sHdr nr s = some (saddr, nr') →
      mmap_allocate pageSize rHdr sHdr (some a) regs s =
        ⟨some (saddr + sHdr), regs ++ [nr'], true, []⟩) := by
  cases regs with
  | nil => exact absurd rfl hne
  | cons r rs =>
    constructor
    · intro hplace
      rw [mmap_allocate, hscan, hreg]
      simp only [hplace]
    · intro saddr nr' hplace
      rw [mmap_allocate, hscan, hreg]
      simp only [hplace]

theorem mmap_new_region_rollback_or_link_witness :
    mmap_allocate 4096 48 40 (some 8192) [⟨0, 4056, 0, [⟨48, 52, false⟩]⟩]
        52 =
      ⟨some 8280, [⟨0, 4056, 0, [⟨48, 52, false⟩]⟩,
        ⟨8192, 4056, 3964, [⟨8240, 52, false⟩]⟩], true, []⟩ :=
  (mmap_new_region_rollback_or_link 4096 48 40 8192 52
      [⟨0, 4056, 0, [⟨48, 52, false⟩]⟩] ⟨8192, 4056, 4056, []⟩
      (by decide) (by decide) (by decide)).2
    8240 ⟨8192, 4056, 3964, [⟨8240, 52, false⟩]⟩ (by decide)

/-- C1 as stated fails on two counts.  (i) The concrete test: allocate
two aligned-52 blocks (header size 40, arena base 0), free both, then
allocate `2 × aligned(52) = 112`.  Freeing the second block — the
tail — removes it from the list and shrinks the arena, so the scan
finds only one free 56-byte block, the merge fails, and the allocation
grows the arena and returns `136 = base + 2·hdr + aligned(52)` instead
of the claimed `base + hdr = 40`.  (ii) The merge-size formula: with
adjacent free blocks of sizes 56 and 96 (followed by an allocated
block), requesting 112 merges them into a block of size
`152 = 56 + 56 + 40` — the accumulator adds the *current* block's size
plus a header at the adjacency step — not the claimed sum of the
merged usable sizes plus reclaimed overhead `56 + 96 + 40 = 192`. -/
theorem coalesce_two_block_test_fails :
    (qudelloc 40
        (qudelloc 40
          (qualloc 40 true (qualloc 40 true ⟨[], 0⟩ 52).state 52).state 40)
        136 = ⟨[⟨0, 56, true, none⟩], 96⟩ ∧
      (qualloc 40 true
          (qudelloc 40
            (qudelloc 40
              (qualloc 40 true (qualloc 40 true ⟨[], 0⟩ 52).state 52).state
              40)
            136) 112).ptr = some 136 ∧
      (qualloc 40 true
          (qudelloc 40
            (qudelloc 40
              (qualloc 40 true (qualloc 40 true ⟨[], 0⟩ 52).state 52).state
              40)
            136) 112).ptr ≠ some (0 + 40)) ∧
    (qualloc 40 true
        ⟨[⟨0, 56, true, none⟩, ⟨96, 96, true, some 0⟩,
          ⟨232, 56, false, some 96⟩], 328⟩ 112 =
        ⟨some 40, ⟨[⟨0, 152, false, none⟩, ⟨232, 56, false, some 0⟩], 328⟩,
          false⟩ ∧
      (152 : Nat) ≠ 56 + 96 + 40) := by
  decide

/-- C1 amended.  General part: whenever the scan — after any run of
non-free nodes — reaches a free node `b` too small for the request,
followed by a physically adjacent free node `c` (adjacency =
`b.addr + hdr + b.size = c.addr`), and `b.size + b.size + hdr` covers
the request, the engine merges the two: `b`'s size becomes its own
size counted twice plus one reclaimed header (the absorbed node's own
size is not consulted — with equal sizes this is the claimed sum of
usable sizes plus reclaimed header overhead), `b`'s next link is
relinked past `c` with the following node's `prev` pointed back at
`b`, and the allocation returns `b`'s user pointer without consulting
the OS or moving the heap boundary.  Concrete part: the claimed test
additionally needs a third, still-allocated block after B, because
freeing the tail B removes it and shrinks the arena: after allocating
three aligned-52 blocks at base 0 and freeing the first two,
allocating 112 returns the arena base plus one header size, the
merged node's size being `56 + 56 + 40`. -/
theorem coalesce_on_demand_with_tail_block :
    (∀ (hdr size heap : Nat) (sbrkOk : Bool)
        (pre rest : List BumpMemoryBlockHeader)
        (b c : BumpMemoryBlockHeader),
      (∀ m ∈ pre, m.is_free = false) →
      b.is_free = true → c.is_free = true →
      b.addr + hdr + b.size = c.addr →
      b.size < size → size ≤ b.size + b.size + hdr →
      qualloc hdr sbrkOk ⟨pre ++ b :: c :: rest, heap⟩ size =
        ⟨some (b.addr + hdr),
         ⟨pre ++ { b with size := b.size + b.size + hdr, is_free := false } ::
            relinkPrev b.addr rest, heap⟩, false⟩) ∧
    qualloc 40 true
        (qudelloc 40
          (qudelloc 40
            (qualloc 40 true
              (qualloc 40 true (qualloc 40 true ⟨[], 0⟩ 52).state 52).state
              52).state 40)
          136) 112 =
      ⟨some (0 + 40),
        ⟨[⟨0, 56 + 56 + 40, false, none⟩, ⟨192, 56, false, some 0⟩], 288⟩,
        false⟩ := by
  constructor
  · intro hdr size heap sbrkOk pre rest b c hpre hb hc hadj hsmall hreach
    have hnb : ¬ b.is_free = false := by simp [hb]
    have hnc : ¬ c.is_free = false := by simp [hc]
    have hnlt : ¬ (b.size + b.size + hdr < size) := by omega
    have hgo2 : mergeGo hdr size c rest 1 (b.size + b.size + hdr) (some 0) =
        (some 1, b.size + b.size + hdr) := by
      rw [mergeGo.eq_def, if_neg hnc, if_pos hreach]
    have hgo1 : mergeGo hdr size b (c :: rest) 0 b.size none =
        (some 1, b.size + b.size + hdr) := by
      rw [mergeGo.eq_def, if_neg hnb, if_neg (by omega : ¬ size ≤ b.size)]
      simpa [hc, hadj] using hgo2
    have hmerge : merge_adjacent_free_blocks hdr (b :: c :: rest) size =
        (true,
         { b with size := b.size + b.size + hdr } :: relinkPrev b.addr rest,
         some 1) := by
      cases rest with
      | nil => simp [merge_adjacent_free_blocks, hb, hgo1, hnlt, relinkPrev]
      | cons x xs =>
        simp [merge_adjacent_free_blocks, hb, hgo1, hnlt, relinkPrev]
    have hq : qualloc hdr sbrkOk ⟨pre ++ b :: c :: rest, heap⟩ size =
        quallocGo hdr sbrkOk size ((pre ++ b :: c :: rest).length + 1) []
          (pre ++ b :: c :: rest) heap := by
      cases pre <;> rfl
    have hlen : (pre ++ b :: c :: rest).length + 1 =
        (rest.length + 3) + pre.length := by
      simp only [List.length_append, List.length_cons]
      omega
    rw [hq, hlen,
      quallocGo_skip_occupied hdr sbrkOk size pre (rest.length + 3) []
        (b :: c :: rest) heap hpre,
      List.nil_append,
      show rest.length + 3 = rest.length + 2 + 1 from rfl,
      quallocGo_merge_step hdr sbrkOk size (rest.length + 2) heap pre
        (c :: rest) _ b _ hb hsmall hmerge,
      show rest.length + 2 = rest.length + 1 + 1 from rfl,
      quallocGo_hit hdr sbrkOk size (rest.length + 1) heap pre
        (relinkPrev b.addr rest) { b with size := b.size + b.size + hdr }
        hb hnlt]
  · decide

theorem coalesce_on_demand_with_tail_block_witness :
    qualloc 40 true
        ⟨[⟨0, 56, false, none⟩, ⟨96, 56, true, some 0⟩,
          ⟨192, 56, true, some 96⟩, ⟨288, 56, false, some 192⟩], 328⟩ 112 =
      ⟨some (96 + 40),
        ⟨[⟨0, 56, false, none⟩, ⟨96, 56 + 56 + 40, false, some 0⟩,
          ⟨288, 56, false, some 96⟩], 328⟩, false⟩ :=
  coalesce_on_demand_with_tail_block.1 40 112 328 true
    [⟨0, 56, false, none⟩] [⟨288, 56, false, some 192⟩]
    ⟨96, 56, true, some 0⟩ ⟨192, 56, true, some 96⟩
    (by decide) (by decide) (by decide) (by decide) (by decide) (by decide)

/-- C2 evidence (code bug): after the first allocation the sole region
has only a non-free section and ample room, so the spec (and the
source's own comment at the end of `place_section_inside_region`)
requires appending a new section after the last one; the code instead
returns `None` — the append path is unimplemented — and the next
allocation maps a brand-new region. -/
theorem place_section_no_append_bug :
    (mmap_allocate 4096 48 40 (some 0) [] 52).regions =
      [⟨0, 4056, 4056, [⟨48, 52, false⟩]⟩] ∧
    room_to_append 48 40 ⟨0, 4056, 4056, [⟨48, 52, false⟩]⟩ 52 = true ∧
    ¬ (4056 : Nat) < 52 ∧
    place_section_inside_region 48 40 ⟨0, 4056, 4056, [⟨48, 52, false⟩]⟩
      52 = none ∧
    (mmap_allocate 4096 48 40 (some 8192)
      [⟨0, 4056, 4056, [⟨48, 52, false⟩]⟩] 52).regions.length = 2 := by
  decide

/-- C3 evidence (code bug): the first allocation initializes the region
list by writing the section directly, without decrementing
`space_available`, so the freshly created region violates the spec's
available-space invariant (`4056 ≠ 4056 - (52 + 40)`); the placement
path of `place_section_inside_region` does maintain it, as the second
region created by the very next allocation shows. -/
theorem first_allocation_breaks_space_invariant :
    (mmap_allocate 4096 48 40 (some 0) [] 52).regions =
      [⟨0, 4056, 4056, [⟨48, 52, false⟩]⟩] ∧
    occupiedFootprint 40 [⟨48, 52, false⟩] = 92 ∧
    ¬ mmapRegionInvariant 40 ⟨0, 4056, 4056, [⟨48, 52, false⟩]⟩ ∧
    mmapRegionInvariant 40 ⟨8192, 4056, 3964, [⟨8240, 52, false⟩]⟩ ∧
    (mmap_allocate 4096 48 40 (some 8192)
        [⟨0, 4056, 4056, [⟨48, 52, false⟩]⟩] 52).regions.getLast? =
      some ⟨8192, 4056, 3964, [⟨8240, 52, false⟩]⟩ := by
  decide

end Quallocator
